import Mathlib

/-!
Shallow embedding of the ownership-based key-value cache-coherence protocol
from `duality/kvcache/kvcache.go`.

Go maps are modelled as association lists over `String` keys; a lookup on a
missing key yields `none` (for the boolean ownership map, the Go zero value
`false`).  The store goroutine `KVStore` is embedded as a per-request step
function `KVStoreStep` on an explicit `StoreState`; channel sends are
modelled as an ordered list of `(channel id, reply)` outputs, and each step
additionally records the observable protocol events (grant / writeOk / ...)
of the branch taken.  The client goroutine `KVClient` is embedded as four
pure phase functions (the part before contacting the store, and the part
after the store's reply, for get and for put).  A whole system of clients
attached to one store is embedded as `sysStep` / `sysRun` over `SysState`,
which serialises the rendezvous exactly as the claims' "serialized sequence
of Get/Put calls" requires: one external call is processed to quiescence at
a time, with the store's reply to a queued waiter delivered (and the
waiter's pending Get completed) right after the releasing Put completes.
-/

/-- Association-list lookup, modelling Go's `m[k]` comma-ok form. -/
def alookup {α : Type} : List (String × α) → String → Option α
  | [], _ => none
  | (k', v) :: rest, k => if k = k' then some v else alookup rest k

/-- Association-list insert/update, modelling Go's `m[k] = v`. -/
def ainsert {α : Type} (m : List (String × α)) (k : String) (v : α) :
    List (String × α) :=
  match m with
  | [] => [(k, v)]
  | (k', v') :: rest =>
    if k = k' then (k', v) :: rest else (k', v') :: ainsert rest k v

/-- Association-list removal, modelling Go's `delete(m, k)`. -/
def aerase {α : Type} : List (String × α) → String → List (String × α)
  | [], _ => []
  | (k', v) :: rest, k =>
    if k' = k then aerase rest k else (k', v) :: aerase rest k

theorem alookup_ainsert {α : Type} (m : List (String × α)) (k k' : String)
    (v : α) :
    alookup (ainsert m k v) k' = if k' = k then some v else alookup m k' := by
  induction m with
  | nil => simp [ainsert, alookup]
  | cons p rest ih =>
    obtain ⟨a, b⟩ := p
    by_cases hka : k = a
    · subst hka
      simp only [ainsert, if_pos rfl, alookup]
      by_cases hk' : k' = k
      · simp [hk']
      · simp [hk']
    · simp only [ainsert, if_neg hka, alookup]
      by_cases hk'a : k' = a
      · subst hk'a
        have : ¬ k' = k := fun h => hka h.symm
        simp [this]
      · simp [hk'a, ih]

theorem alookup_aerase {α : Type} (m : List (String × α)) (k k' : String) :
    alookup (aerase m k) k' = if k' = k then none else alookup m k' := by
  induction m with
  | nil => simp [aerase, alookup]
  | cons p rest ih =>
    obtain ⟨a, b⟩ := p
    by_cases hak : a = k
    · subst hak
      simp only [aerase, if_pos rfl, ih]
      by_cases hk' : k' = a
      · subst hk'
        simp [ih]
      · simp [hk', ih, alookup]
    · simp only [aerase, if_neg hak, alookup]
      by_cases hk' : k' = a
      · subst hk'
        have hne : ¬ k' = k := hak
        simp [hne]
      · simp [hk', ih]

/-- Pointwise update of a function-valued table (client caches, pending set). -/
def updF {α : Type} (f : Nat → α) (c : Nat) (x : α) : Nat → α :=
  fun c' => if c' = c then x else f c'

theorem updF_apply {α : Type} (f : Nat → α) (c : Nat) (x : α) (c' : Nat) :
    updF f c x c' = if c' = c then x else f c' := rfl

theorem updF_same {α : Type} (f : Nat → α) (c : Nat) (x : α) :
    updF f c x c = x := by simp [updF]

theorem updF_ne {α : Type} (f : Nat → α) (c : Nat) (x : α) (c' : Nat)
    (h : c' ≠ c) : updF f c x c' = f c' := by simp [updF, h]

theorem updF_updF_same {α : Type} (f : Nat → α) (c : Nat) (x y : α) :
    updF (updF f c x) c y = updF f c y := by
  funext c'
  by_cases h : c' = c <;> simp [updF, h]

/-! ## Store request/reply types (`KVOp`, `KVRequest`, `KVReply`) -/

/-- `KVOp`: the operation kinds the store understands. -/
inductive KVOp where
  | read
  | write
deriving DecidableEq, Repr

/-- `KVRequest`: a request to the store.  The Go reply channel is modelled
by a numeric channel identifier; the system layer uses the issuing client's
id as the channel id (each client has at most one outstanding request). -/
structure KVRequest where
  op : KVOp
  key : String
  value : Int
  reply : Nat
deriving DecidableEq, Repr

/-- `KVReply`: the store's reply. -/
structure KVReply where
  value : Int
  ok : Bool
deriving DecidableEq, Repr

/-- The store goroutine's local state: the value table `store`, the
ownership table `isKeyOwned_store` and the waiter slot
`waitingclients_store` of `KVStore`. -/
structure StoreState where
  store : List (String × Int)
  isKeyOwned_store : List (String × Bool)
  waitingclients_store : List (String × KVRequest)
deriving DecidableEq, Repr

/-- Go's `isKeyOwned_store[k]` with the zero-value default `false`. -/
def ownedB (m : List (String × Bool)) (k : String) : Bool :=
  (alookup m k).getD false

/-- Observable store events, one per branch of the store loop: a Read being
granted (replied `ok=true`, immediately or by waking the waiter), a Write
succeeding, a Write failing on an absent key, a Read being queued. -/
inductive SEv where
  | grant (key : String) (value : Int)
  | writeOk (key : String) (value : Int)
  | writeFail (key : String)
  | queued (key : String)
deriving DecidableEq, Repr

/-- Result of one iteration of the store loop: the new state, the replies
sent on channels (in send order), and the observable events. -/
structure StoreStepRes where
  state : StoreState
  outs : List (Nat × KVReply)
  evs : List SEv
deriving Repr

/-- One iteration of the `KVStore` loop body on a single request,
translated from `kvcache.go` lines 70–121. -/
def KVStoreStep (s : StoreState) (req : KVRequest) : StoreStepRes :=
  match req.op with
  | .read =>
    if ownedB s.isKeyOwned_store req.key = false then
      -- grant ownership; if key missing, create with 0
      let owned1 := ainsert s.isKeyOwned_store req.key true
      match alookup s.store req.key with
      | some val =>
        ⟨⟨s.store, owned1, s.waitingclients_store⟩,
         [(req.reply, ⟨val, true⟩)], [.grant req.key val]⟩
      | none =>
        ⟨⟨ainsert s.store req.key 0, owned1, s.waitingclients_store⟩,
         [(req.reply, ⟨0, true⟩)], [.grant req.key 0]⟩
    else
      -- owned: record this request as the sole waiter, reply later
      ⟨⟨s.store, s.isKeyOwned_store,
        ainsert s.waitingclients_store req.key req⟩,
       [], [.queued req.key]⟩
  | .write =>
    match alookup s.store req.key with
    | none =>
      -- fail if key not in map
      ⟨s, [(req.reply, ⟨0, false⟩)], [.writeFail req.key]⟩
    | some _ =>
      let store1 := ainsert s.store req.key req.value
      let owned1 := ainsert s.isKeyOwned_store req.key false
      match alookup s.waitingclients_store req.key with
      | some waiting_guy =>
        let owned2 := ainsert owned1 waiting_guy.key true
        match alookup store1 waiting_guy.key with
        | some val =>
          ⟨⟨store1, owned2, aerase s.waitingclients_store req.key⟩,
           [(req.reply, ⟨req.value, true⟩), (waiting_guy.reply, ⟨val, true⟩)],
           [.writeOk req.key req.value, .grant waiting_guy.key val]⟩
        | none =>
          ⟨⟨ainsert store1 waiting_guy.key 0, owned2,
            aerase s.waitingclients_store req.key⟩,
           [(req.reply, ⟨req.value, true⟩), (waiting_guy.reply, ⟨0, true⟩)],
           [.writeOk req.key req.value, .grant waiting_guy.key 0]⟩
      | none =>
        ⟨⟨store1, owned1, aerase s.waitingclients_store req.key⟩,
         [(req.reply, ⟨req.value, true⟩)],
         [.writeOk req.key req.value]⟩

/-- Running the store loop over a whole request stream, accumulating the
replies and events in order. -/
def KVStoreRun (s : StoreState) :
    List KVRequest → StoreState × List (Nat × KVReply) × List SEv
  | [] => (s, [], [])
  | r :: rs =>
    let res := KVStoreStep s r
    let rest := KVStoreRun res.state rs
    (rest.1, res.outs ++ rest.2.1, res.evs ++ rest.2.2)

/-- The store's initial state: three empty maps. -/
def initStore : StoreState := ⟨[], [], []⟩

/-! ## Client types and phase functions (`KVClient`) -/

/-- `ClientReply`: the client's reply to the caller that initiated a
get/put.  Unset Go fields carry their zero values (`0`, `false`, `""`). -/
structure ClientReply where
  value : Int
  hit : Bool
  ok : Bool
  err : String
deriving DecidableEq, Repr

/-- The `ClientGet` branch of `KVClient` before contacting the store
(lines 134–147): on a cache hit reply immediately; on a miss emit the
`KVRead` request that is sent to the store.  `ch` is the fresh reply
channel's identifier. -/
def KVClientGetLocal (cache : List (String × Int)) (key : String)
    (ch : Nat) :
    List (String × Int) × Option KVRequest × Option ClientReply :=
  match alookup cache key with
  | some v => (cache, none, some ⟨v, true, true, ""⟩)
  | none => (cache, some ⟨.read, key, 0, ch⟩, none)

/-- The `ClientGet` branch of `KVClient` after the store's reply
(lines 148–157): on success populate the cache and reply with the value;
on failure reply `kv read failed` with the cache unmodified. -/
def KVClientGetReply (cache : List (String × Int)) (key : String)
    (resp : KVReply) : List (String × Int) × ClientReply :=
  if resp.ok then
    (ainsert cache key resp.value, ⟨resp.value, false, true, ""⟩)
  else
    (cache, ⟨0, false, false, "kv read failed"⟩)

/-- The `ClientPut` branch of `KVClient` before contacting the store
(lines 160–176): reject if the key is not in the local cache; otherwise
mutate the cache optimistically and emit the `KVWrite` request. -/
def KVClientPutLocal (cache : List (String × Int)) (key : String)
    (value : Int) (ch : Nat) :
    List (String × Int) × Option KVRequest × Option ClientReply :=
  match alookup cache key with
  | none => (cache, none, some ⟨0, false, false, "key not in local cache"⟩)
  | some _ => (ainsert cache key value, some ⟨.write, key, value, ch⟩, none)

/-- The `ClientPut` branch of `KVClient` after the store's reply
(lines 177–186): on success remove the key from the cache and reply
`{hit=true, ok=true}`; on failure reply the write-failed error with the
(already mutated) cache kept as is. -/
def KVClientPutReply (cache : List (String × Int)) (key : String)
    (resp : KVReply) : List (String × Int) × ClientReply :=
  if resp.ok then
    (aerase cache key, ⟨0, true, true, ""⟩)
  else
    (cache, ⟨0, false, false, "kv write failed (key missing in store)"⟩)

/-! ## The composed system: one store, many clients -/

/-- An external call a client receives: `Get(key)` or `Put(key, value)`. -/
inductive ClientCall where
  | get (key : String)
  | put (key : String) (value : Int)
deriving DecidableEq, Repr

/-- An external call event: which client receives which call. -/
structure Event where
  client : Nat
  act : ClientCall
deriving DecidableEq, Repr

/-- A completed external call: the issuing client, the call, and the
`ClientReply` its caller received.  The system produces completions in the
order the replies are delivered. -/
structure Completion where
  client : Nat
  act : ClientCall
  rep : ClientReply
deriving DecidableEq, Repr

/-- Global system state: the store's state, each client's local cache
(indexed by client id), and, for each client, the key of its pending
blocked `Get` if the store has queued it as a waiter (`none` when the
client is free to accept calls). -/
structure SysState where
  st : StoreState
  caches : Nat → List (String × Int)
  pending : Nat → Option String

/-- Deliver one store reply: a reply on the issuing client's own channel
finishes that client's current call via the matching `...Reply` phase; a
reply on another channel wakes that blocked client's pending `Get`. -/
def handleOut (c : Nat) (a : ClientCall) (acc : SysState × List Completion)
    (out : Nat × KVReply) : SysState × List Completion :=
  let s := acc.1
  if out.1 = c then
    match a with
    | .get k =>
      let r := KVClientGetReply (s.caches c) k out.2
      ({s with caches := updF s.caches c r.1}, acc.2 ++ [⟨c, .get k, r.2⟩])
    | .put k v =>
      let r := KVClientPutReply (s.caches c) k out.2
      ({s with caches := updF s.caches c r.1}, acc.2 ++ [⟨c, .put k v, r.2⟩])
  else
    match s.pending out.1 with
    | some pk =>
      let r := KVClientGetReply (s.caches out.1) pk out.2
      ({s with caches := updF s.caches out.1 r.1,
               pending := updF s.pending out.1 none},
       acc.2 ++ [⟨out.1, .get pk, r.2⟩])
    | none => acc

/-- One serialized external call processed to quiescence: the client's
local phase, then (if a request was sent) the store's step, then delivery
of every reply the store sent.  A `Get` whose request got queued leaves
the client blocked (`pending := some key`) with no completion yet. -/
def sysStep (s : SysState) (e : Event) : SysState × List Completion :=
  match e.act with
  | .get k =>
    match KVClientGetLocal (s.caches e.client) k e.client with
    | (_, none, some rep) => (s, [⟨e.client, .get k, rep⟩])
    | (_, some req, _) =>
      let r := KVStoreStep s.st req
      let s1 : SysState := {s with st := r.state}
      if r.outs.isEmpty then
        ({s1 with pending := updF s1.pending e.client (some k)}, [])
      else
        r.outs.foldl (handleOut e.client (.get k)) (s1, [])
    | (_, none, none) => (s, [])
  | .put k v =>
    match KVClientPutLocal (s.caches e.client) k v e.client with
    | (_, none, some rep) => (s, [⟨e.client, .put k v, rep⟩])
    | (cache1, some req, _) =>
      let s1 : SysState := {s with caches := updF s.caches e.client cache1}
      let r := KVStoreStep s1.st req
      r.outs.foldl (handleOut e.client (.put k v)) ({s1 with st := r.state}, [])
    | (_, none, none) => (s, [])

/-- Running the system over a whole event list, accumulating completions
in delivery order. -/
def sysRun (s : SysState) : List Event → SysState × List Completion
  | [] => (s, [])
  | e :: es =>
    let r := sysStep s e
    let rest := sysRun r.1 es
    (rest.1, r.2 ++ rest.2)

/-- A serialized event list is valid when every call is issued by a client
that is not blocked on a pending `Get` (a blocked client's caller is still
suspended, so that client cannot accept a new call). -/
def validRun (s : SysState) : List Event → Bool
  | [] => true
  | e :: es => (s.pending e.client).isNone && validRun (sysStep s e).1 es

/-- Initial system state: empty store, empty caches, nobody blocked. -/
def initSys : SysState := ⟨initStore, fun _ => [], fun _ => none⟩

/-- Folding one completion into the "value of the most recently completed
Put to key `k`" accumulator: a completed `Put(k, v)` with `ok = true`
becomes the new last value. -/
def lastPutStep (k : String) (acc : Option Int) (comp : Completion) :
    Option Int :=
  match comp.act with
  | .put k' v => if k' = k ∧ comp.rep.ok = true then some v else acc
  | _ => acc

/-- The value of the most recently completed successful `Put` to `k` in a
completion history, if any. -/
def lastPut (h : List Completion) (k : String) : Option Int :=
  h.foldl (lastPutStep k) none

/-- Coherence of a completion history: every completed, successful `Get`
returns the value of the most recently completed `Put` to its key among
the strictly earlier completions, or `0` if there is none. -/
def GetCoherent (h : List Completion) : Prop :=
  ∀ pre comp post k, h = pre ++ comp :: post → comp.act = .get k →
    comp.rep.ok = true → comp.rep.value = (lastPut pre k).getD 0

/-! ## Store-level single-step properties (claims C3–C7) -/

/-- C3.  Release-then-grant ordering: if the waiter slot holds a queued
Read request for key `K`, a successful `Write(K, v)` replies to the queued
waiter with `{value = v, ok = true}` — the value just written, not any
earlier value — clears the waiter slot for `K`, and leaves `K` marked
OWNED. -/
theorem C3_release_then_grant (s : StoreState) (K : String) (v : Int)
    (c : Nat) (wg : KVRequest)
    (hw : alookup s.waitingclients_store K = some wg) (hkey : wg.key = K)
    (hpresent : (alookup s.store K).isSome) :
    (KVStoreStep s ⟨.write, K, v, c⟩).outs =
      [(c, ⟨v, true⟩), (wg.reply, ⟨v, true⟩)] ∧
    alookup (KVStoreStep s ⟨.write, K, v, c⟩).state.waitingclients_store K =
      none ∧
    ownedB (KVStoreStep s ⟨.write, K, v, c⟩).state.isKeyOwned_store K =
      true := by
  obtain ⟨w', hw'⟩ := Option.isSome_iff_exists.mp hpresent
  simp [KVStoreStep, hw', hw, hkey, alookup_ainsert, alookup_aerase, ownedB]

theorem C3_witness :
    (alookup (StoreState.mk [("k", (1 : Int))] [("k", true)]
        [("k", ⟨.read, "k", 0, 7⟩)]).waitingclients_store "k" =
      some ⟨.read, "k", 0, 7⟩) ∧
    (KVRequest.mk .read "k" 0 7).key = "k" ∧
    (alookup (StoreState.mk [("k", (1 : Int))] [("k", true)]
        [("k", ⟨.read, "k", 0, 7⟩)]).store "k").isSome = true ∧
    ((KVStoreStep (StoreState.mk [("k", (1 : Int))] [("k", true)]
          [("k", ⟨.read, "k", 0, 7⟩)]) ⟨.write, "k", 9, 3⟩).outs =
        [(3, ⟨9, true⟩), (7, ⟨9, true⟩)] ∧
      alookup (KVStoreStep (StoreState.mk [("k", (1 : Int))] [("k", true)]
          [("k", ⟨.read, "k", 0, 7⟩)])
          ⟨.write, "k", 9, 3⟩).state.waitingclients_store "k" = none ∧
      ownedB (KVStoreStep (StoreState.mk [("k", (1 : Int))] [("k", true)]
          [("k", ⟨.read, "k", 0, 7⟩)])
          ⟨.write, "k", 9, 3⟩).state.isKeyOwned_store "k" = true) :=
  ⟨by decide, by decide, by decide,
   C3_release_then_grant _ "k" 9 3 ⟨.read, "k", 0, 7⟩ (by decide) (by decide)
     (by decide)⟩

/-- C4.  Write success and release: for a key present in the value table,
`Write(key, v)` sets the stored value to `v` and replies
`{value = v, ok = true}` to the writer; if no waiter is queued on the key,
the key becomes UNOWNED. -/
theorem C4_write_success_release (s : StoreState) (K : String) (v : Int)
    (c : Nat) (hK : (alookup s.store K).isSome) :
    alookup (KVStoreStep s ⟨.write, K, v, c⟩).state.store K = some v ∧
    (KVStoreStep s ⟨.write, K, v, c⟩).outs.head? = some (c, ⟨v, true⟩) ∧
    (alookup s.waitingclients_store K = none →
      ownedB (KVStoreStep s ⟨.write, K, v, c⟩).state.isKeyOwned_store K =
        false) := by
  obtain ⟨w', hw'⟩ := Option.isSome_iff_exists.mp hK
  rcases hwt : alookup s.waitingclients_store K with _ | wg
  · simp [KVStoreStep, hw', hwt, alookup_ainsert, ownedB]
  · by_cases hkk : wg.key = K
    · simp [KVStoreStep, hw', hwt, hkk, alookup_ainsert, ownedB]
    · rcases hs1 : alookup (ainsert s.store K v) wg.key with _ | val
      · have hKne : ¬ K = wg.key := fun h => hkk h.symm
        simp [KVStoreStep, hw', hwt, hs1, alookup_ainsert, hKne, ownedB]
      · simp [KVStoreStep, hw', hwt, hs1, alookup_ainsert, ownedB]

theorem C4_witness :
    (alookup (StoreState.mk [("k", (1 : Int))] [] []).store "k").isSome =
      true ∧
    (alookup (KVStoreStep (StoreState.mk [("k", (1 : Int))] [] [])
        ⟨.write, "k", 9, 3⟩).state.store "k" = some 9 ∧
      (KVStoreStep (StoreState.mk [("k", (1 : Int))] [] [])
        ⟨.write, "k", 9, 3⟩).outs.head? = some (3, ⟨9, true⟩) ∧
      (alookup (StoreState.mk [("k", (1 : Int))] [] []).waitingclients_store
          "k" = none →
        ownedB (KVStoreStep (StoreState.mk [("k", (1 : Int))] [] [])
          ⟨.write, "k", 9, 3⟩).state.isKeyOwned_store "k" = false)) :=
  ⟨by decide, C4_write_success_release _ "k" 9 3 (by decide)⟩

/-- C5.  Write fails on an absent key: if the key is absent from the value
table, `Write(key, v)` replies `{value = 0, ok = false}` and leaves the
whole store state (value table, ownership table, waiter slot)
unchanged. -/
theorem C5_write_missing_key (s : StoreState) (K : String) (v : Int)
    (c : Nat) (habs : alookup s.store K = none) :
    (KVStoreStep s ⟨.write, K, v, c⟩).outs = [(c, ⟨0, false⟩)] ∧
    (KVStoreStep s ⟨.write, K, v, c⟩).state = s := by
  simp [KVStoreStep, habs]

theorem C5_witness :
    alookup (StoreState.mk [("a", (4 : Int))] [] []).store "b" = none ∧
    ((KVStoreStep (StoreState.mk [("a", (4 : Int))] [] [])
        ⟨.write, "b", 9, 3⟩).outs = [(3, ⟨0, false⟩)] ∧
      (KVStoreStep (StoreState.mk [("a", (4 : Int))] [] [])
        ⟨.write, "b", 9, 3⟩).state = StoreState.mk [("a", 4)] [] []) :=
  ⟨by decide, C5_write_missing_key _ "b" 9 3 (by decide)⟩

/-- C6.  Read grant: for a key not currently marked owned, `Read(key)`
marks the key OWNED and replies `{value, ok = true}` with the stored
value, the key being initialized to `0` in the value table first when it
had no recorded value (so the first Read ever issued for a key — on which
both the ownership and the value table are empty — returns
`{value = 0, ok = true}` and the key becomes OWNED). -/
theorem C6_read_grant (s : StoreState) (k : String) (c : Nat)
    (hun : ownedB s.isKeyOwned_store k = false) :
    ownedB (KVStoreStep s ⟨.read, k, 0, c⟩).state.isKeyOwned_store k =
      true ∧
    (KVStoreStep s ⟨.read, k, 0, c⟩).outs =
      [(c, ⟨(alookup s.store k).getD 0, true⟩)] ∧
    alookup (KVStoreStep s ⟨.read, k, 0, c⟩).state.store k =
      some ((alookup s.store k).getD 0) := by
  rcases hs : alookup s.store k with _ | val
  · simp only [KVStoreStep, hun, if_true, eq_self_iff_true, hs]
    simp [ownedB, alookup_ainsert]
  · simp only [KVStoreStep, hun, if_true, eq_self_iff_true, hs]
    simp [ownedB, alookup_ainsert]

theorem C6_witness :
    ownedB initStore.isKeyOwned_store "k" = false ∧
    (ownedB (KVStoreStep initStore
        ⟨.read, "k", 0, 3⟩).state.isKeyOwned_store "k" = true ∧
      (KVStoreStep initStore ⟨.read, "k", 0, 3⟩).outs =
        [(3, ⟨(alookup initStore.store "k").getD 0, true⟩)] ∧
      alookup (KVStoreStep initStore ⟨.read, "k", 0, 3⟩).state.store "k" =
        some ((alookup initStore.store "k").getD 0)) :=
  ⟨by decide, C6_read_grant initStore "k" 3 (by decide)⟩

/-- C7.  Sole-waiter queuing: for a key currently marked OWNED, processing
`Read(key)` sends no reply, records the request as the single waiter for
the key (overwriting any previously recorded waiter for that key, and
leaving every other key's waiter slot alone), and leaves the value table
and the ownership table unchanged. -/
theorem C7_read_queued (s : StoreState) (k : String) (c : Nat)
    (how : ownedB s.isKeyOwned_store k = true) :
    (KVStoreStep s ⟨.read, k, 0, c⟩).outs = [] ∧
    (KVStoreStep s ⟨.read, k, 0, c⟩).state.store = s.store ∧
    (KVStoreStep s ⟨.read, k, 0, c⟩).state.isKeyOwned_store =
      s.isKeyOwned_store ∧
    alookup (KVStoreStep s ⟨.read, k, 0, c⟩).state.waitingclients_store k =
      some ⟨.read, k, 0, c⟩ ∧
    ∀ k', k' ≠ k →
      alookup (KVStoreStep s ⟨.read, k, 0, c⟩).state.waitingclients_store
        k' = alookup s.waitingclients_store k' := by
  refine ⟨?_, ?_, ?_, ?_, ?_⟩ <;>
    simp [KVStoreStep, how, alookup_ainsert]
  intro k' hk'
  simp [hk']

theorem C7_witness :
    ownedB (StoreState.mk [("k", (5 : Int))] [("k", true)]
      [("k", ⟨.read, "k", 0, 9⟩)]).isKeyOwned_store "k" = true ∧
    ((KVStoreStep (StoreState.mk [("k", (5 : Int))] [("k", true)]
        [("k", ⟨.read, "k", 0, 9⟩)]) ⟨.read, "k", 0, 3⟩).outs = [] ∧
      (KVStoreStep (StoreState.mk [("k", (5 : Int))] [("k", true)]
        [("k", ⟨.read, "k", 0, 9⟩)]) ⟨.read, "k", 0, 3⟩).state.store =
        [("k", 5)] ∧
      (KVStoreStep (StoreState.mk [("k", (5 : Int))] [("k", true)]
        [("k", ⟨.read, "k", 0, 9⟩)])
        ⟨.read, "k", 0, 3⟩).state.isKeyOwned_store = [("k", true)] ∧
      alookup (KVStoreStep (StoreState.mk [("k", (5 : Int))] [("k", true)]
        [("k", ⟨.read, "k", 0, 9⟩)])
        ⟨.read, "k", 0, 3⟩).state.waitingclients_store "k" =
        some ⟨.read, "k", 0, 3⟩ ∧
      ∀ k', k' ≠ "k" →
        alookup (KVStoreStep (StoreState.mk [("k", (5 : Int))] [("k", true)]
          [("k", ⟨.read, "k", 0, 9⟩)])
          ⟨.read, "k", 0, 3⟩).state.waitingclients_store k' =
          alookup (StoreState.mk [("k", (5 : Int))] [("k", true)]
            [("k", ⟨.read, "k", 0, 9⟩)]).waitingclients_store k') := by
  refine ⟨by decide, ?_⟩
  have h := C7_read_queued (StoreState.mk [("k", (5 : Int))] [("k", true)]
    [("k", ⟨.read, "k", 0, 9⟩)]) "k" 3 (by decide)
  exact h

/-! ## Client-level single-call properties (claims C8–C9) -/

/-- C8.  Put requires local ownership: when the key is absent from the
client's local cache, `Put(key, v)` replies
`{ok = false, err = "key not in local cache"}`, sends no request to the
store, and leaves the cache unchanged. -/
theorem C8_put_requires_local_ownership (cache : List (String × Int))
    (k : String) (v : Int) (ch : Nat) (habs : alookup cache k = none) :
    KVClientPutLocal cache k v ch =
      (cache, none, some ⟨0, false, false, "key not in local cache"⟩) := by
  simp [KVClientPutLocal, habs]

theorem C8_witness :
    alookup [("a", (3 : Int))] "b" = none ∧
    KVClientPutLocal [("a", (3 : Int))] "b" 9 4 =
      ([("a", 3)], none,
        some ⟨0, false, false, "key not in local cache"⟩) :=
  ⟨by decide, C8_put_requires_local_ownership _ "b" 9 4 (by decide)⟩

/-- C9.  Optimistic Put mutation: when the cache contains the key,
`Put(key, v)` first updates the cache entry to `v` and sends the Write to
the store; if the store replies `ok = false` the client replies the
write-failed error and the cache retains the new value `v` (no rollback),
whereas on `ok = true` the key is removed from the cache and the client
replies `{hit = true, ok = true}`. -/
theorem C9_optimistic_put (cache : List (String × Int)) (k : String)
    (v : Int) (ch : Nat) (w : Int) (hc : alookup cache k = some w) :
    KVClientPutLocal cache k v ch =
      (ainsert cache k v, some ⟨.write, k, v, ch⟩, none) ∧
    (∀ rv, KVClientPutReply (ainsert cache k v) k ⟨rv, false⟩ =
      (ainsert cache k v,
        ⟨0, false, false, "kv write failed (key missing in store)"⟩)) ∧
    alookup (ainsert cache k v) k = some v ∧
    (∀ rv, KVClientPutReply (ainsert cache k v) k ⟨rv, true⟩ =
      (aerase (ainsert cache k v) k, ⟨0, true, true, ""⟩)) ∧
    (∀ rv,
      alookup (KVClientPutReply (ainsert cache k v) k ⟨rv, true⟩).1 k =
        none) := by
  refine ⟨?_, ?_, ?_, ?_, ?_⟩ <;>
    simp [KVClientPutLocal, KVClientPutReply, hc, alookup_ainsert,
      alookup_aerase]

theorem C9_witness :
    alookup [("a", (3 : Int))] "a" = some 3 ∧
    (KVClientPutLocal [("a", (3 : Int))] "a" 9 4 =
      (ainsert [("a", 3)] "a" 9, some ⟨.write, "a", 9, 4⟩, none) ∧
    (∀ rv, KVClientPutReply (ainsert [("a", (3 : Int))] "a" 9) "a"
        ⟨rv, false⟩ =
      (ainsert [("a", 3)] "a" 9,
        ⟨0, false, false, "kv write failed (key missing in store)"⟩)) ∧
    alookup (ainsert [("a", (3 : Int))] "a" 9) "a" = some 9 ∧
    (∀ rv, KVClientPutReply (ainsert [("a", (3 : Int))] "a" 9) "a"
        ⟨rv, true⟩ =
      (aerase (ainsert [("a", 3)] "a" 9) "a", ⟨0, true, true, ""⟩)) ∧
    (∀ rv,
      alookup (KVClientPutReply (ainsert [("a", (3 : Int))] "a" 9) "a"
        ⟨rv, true⟩).1 "a" = none)) :=
  ⟨by decide, C9_optimistic_put _ "a" 9 4 3 (by decide)⟩

/-! ## Mutual exclusion at the store (claim C2) -/

/-- Scan the store's observable event stream for one key `k`, tracking the
ownership flag: a grant while the key is already owned would be a
violation (`none`); otherwise the scan returns the final flag. -/
def altRun (k : String) : Bool → List SEv → Option Bool
  | o, [] => some o
  | o, .grant k' _ :: es =>
    if k' = k then (if o then none else altRun k true es) else altRun k o es
  | o, .writeOk k' _ :: es =>
    if k' = k then altRun k false es else altRun k o es
  | o, .writeFail _ :: es => altRun k o es
  | o, .queued _ :: es => altRun k o es

theorem altRun_append (k : String) (xs ys : List SEv) :
    ∀ o, altRun k o (xs ++ ys) =
      (altRun k o xs).bind (fun o' => altRun k o' ys) := by
  induction xs with
  | nil => intro o; simp [altRun]
  | cons e xs ih =>
    intro o
    cases e with
    | grant k' v =>
      by_cases hk : k' = k
      · by_cases ho : o
        · simp [altRun, hk, ho]
        · simp [altRun, hk, ho, ih]
      · simp [altRun, hk, ih]
    | writeOk k' v =>
      by_cases hk : k' = k
      · simp [altRun, hk, ih]
      · simp [altRun, hk, ih]
    | writeFail k' => simp [altRun, ih]
    | queued k' => simp [altRun, ih]

/-- The waiter slot is well formed: an entry stored under key `k` is the
Read request for `k` itself (it was stored by `waitingclients_store[req.Key]
= req`). -/
def StoreInvW (s : StoreState) : Prop :=
  ∀ k wg, alookup s.waitingclients_store k = some wg → wg.key = k

theorem KVStoreStep_invW (s : StoreState) (r : KVRequest)
    (hinv : StoreInvW s) : StoreInvW (KVStoreStep s r).state := by
  intro k wg h
  cases hop : r.op with
  | read =>
    cases hb : ownedB s.isKeyOwned_store r.key with
    | false =>
      rcases hs : alookup s.store r.key with _ | val <;>
        (simp only [KVStoreStep, hop, hb, hs, eq_self_iff_true, if_true]
          at h) <;> exact hinv k wg h
    | true =>
      simp [KVStoreStep, hop, hb] at h
      rw [alookup_ainsert] at h
      by_cases hk : k = r.key
      · rw [if_pos hk] at h
        cases h
        exact hk.symm
      · rw [if_neg hk] at h
        exact hinv k wg h
  | write =>
    rcases hs : alookup s.store r.key with _ | w
    · simp only [KVStoreStep, hop, hs] at h
      exact hinv k wg h
    · rcases hw : alookup s.waitingclients_store r.key with _ | wg0
      · simp only [KVStoreStep, hop, hs, hw, alookup_aerase] at h
        by_cases hk : k = r.key
        · rw [if_pos hk] at h; cases h
        · rw [if_neg hk] at h; exact hinv k wg h
      · rcases hs1 : alookup (ainsert s.store r.key r.value) wg0.key
          with _ | val <;>
          (simp only [KVStoreStep, hop, hs, hw, hs1, alookup_aerase] at h) <;>
          (by_cases hk : k = r.key
           · rw [if_pos hk] at h; cases h
           · rw [if_neg hk] at h; exact hinv k wg h)

theorem KVStoreStep_alt (s : StoreState) (r : KVRequest) (k : String)
    (hinv : StoreInvW s) :
    altRun k (ownedB s.isKeyOwned_store k) (KVStoreStep s r).evs =
      some (ownedB (KVStoreStep s r).state.isKeyOwned_store k) := by
  cases hop : r.op with
  | read =>
    cases hb : ownedB s.isKeyOwned_store r.key with
    | false =>
      have hb' : (alookup s.isKeyOwned_store r.key).getD false = false := hb
      rcases hs : alookup s.store r.key with _ | val <;>
        simp only [KVStoreStep, hop, hb, hs, eq_self_iff_true, if_true] <;>
        (by_cases hk : r.key = k
         · subst hk
           simp [altRun, ownedB, alookup_ainsert, hb']
         · have hk' : ¬ k = r.key := fun hh => hk hh.symm
           simp [altRun, ownedB, alookup_ainsert, hk, hk'])
    | true =>
      simp [KVStoreStep, hop, hb, altRun]
  | write =>
    rcases hs : alookup s.store r.key with _ | w
    · simp [KVStoreStep, hop, hs, altRun]
    · rcases hw : alookup s.waitingclients_store r.key with _ | wg0
      · simp only [KVStoreStep, hop, hs, hw]
        by_cases hk : r.key = k
        · subst hk
          simp [altRun, ownedB, alookup_ainsert]
        · have hk' : ¬ k = r.key := fun hh => hk hh.symm
          simp [altRun, ownedB, alookup_ainsert, hk, hk']
      · have hkey : wg0.key = r.key := hinv _ _ hw
        have hs1 : alookup (ainsert s.store r.key r.value) wg0.key =
            some r.value := by
          rw [hkey, alookup_ainsert, if_pos rfl]
        simp only [KVStoreStep, hop, hs, hw, hs1]
        by_cases hk : r.key = k
        · subst hk
          simp [altRun, hkey, ownedB, alookup_ainsert]
        · have hk' : ¬ k = r.key := fun hh => hk hh.symm
          simp [altRun, hkey, hk, hk', ownedB, alookup_ainsert]

theorem KVStoreRun_alt (rs : List KVRequest) :
    ∀ s k, StoreInvW s →
      altRun k (ownedB s.isKeyOwned_store k) (KVStoreRun s rs).2.2 =
        some (ownedB (KVStoreRun s rs).1.isKeyOwned_store k) := by
  induction rs with
  | nil => intro s k _; simp [KVStoreRun, altRun]
  | cons r rs ih =>
    intro s k hinv
    simp only [KVStoreRun, altRun_append]
    rw [KVStoreStep_alt s r k hinv]
    exact ih _ k (KVStoreStep_invW s r hinv)

theorem altRun_no_two_grants (k : String) :
    ∀ (l2 : List SEv) (l3 : List SEv) (o : Bool) (v2 : Int),
      altRun k true (l2 ++ .grant k v2 :: l3) = some o →
      ∃ w, SEv.writeOk k w ∈ l2 := by
  intro l2
  induction l2 with
  | nil =>
    intro l3 o v2 h
    simp [altRun] at h
  | cons e l2' ih =>
    intro l3 o v2 h
    cases e with
    | grant k' v =>
      by_cases hk : k' = k
      · rw [List.cons_append] at h
        simp [altRun, hk] at h
      · rw [List.cons_append] at h
        simp only [altRun, hk, if_false] at h
        obtain ⟨w, hwmem⟩ := ih l3 o v2 h
        exact ⟨w, List.mem_cons_of_mem _ hwmem⟩
    | writeOk k' v =>
      by_cases hk : k' = k
      · subst hk
        exact ⟨v, List.mem_cons_self _ _⟩
      · rw [List.cons_append] at h
        simp only [altRun] at h
        rw [if_neg hk] at h
        obtain ⟨w, hwmem⟩ := ih l3 o v2 h
        exact ⟨w, List.mem_cons_of_mem _ hwmem⟩
    | writeFail k' =>
      rw [List.cons_append] at h
      simp only [altRun] at h
      obtain ⟨w, hwmem⟩ := ih l3 o v2 h
      exact ⟨w, List.mem_cons_of_mem _ hwmem⟩
    | queued k' =>
      rw [List.cons_append] at h
      simp only [altRun] at h
      obtain ⟨w, hwmem⟩ := ih l3 o v2 h
      exact ⟨w, List.mem_cons_of_mem _ hwmem⟩

/-- C2.  Mutual exclusion: over any request stream processed by the store
from its initial state, no two Reads on the same key are both granted
(replied `ok = true` — the `grant` events of the run) without a successful
Write to that key (`writeOk` event) processed between them; hence at most
one client holds ownership of a key at any instant. -/
theorem C2_mutual_exclusion (reqs : List KVRequest) (l1 l2 l3 : List SEv)
    (k : String) (v1 v2 : Int)
    (h : (KVStoreRun initStore reqs).2.2 =
      l1 ++ .grant k v1 :: (l2 ++ .grant k v2 :: l3)) :
    ∃ w, SEv.writeOk k w ∈ l2 := by
  have hrun := KVStoreRun_alt reqs initStore k (by intro a b hab; cases hab)
  rw [h] at hrun
  rw [altRun_append] at hrun
  rcases ho1 : altRun k (ownedB initStore.isKeyOwned_store k) l1
    with _ | o1
  · rw [ho1] at hrun; cases hrun
  · rw [ho1] at hrun
    have hrun' : altRun k o1
        (SEv.grant k v1 :: (l2 ++ SEv.grant k v2 :: l3)) =
        some (ownedB (KVStoreRun initStore reqs).1.isKeyOwned_store k) :=
      hrun
    simp only [altRun, if_pos rfl] at hrun'
    cases o1 with
    | true => simp at hrun'
    | false =>
      simp only [Bool.false_eq_true, if_false] at hrun'
      exact altRun_no_two_grants k l2 _ _ v2 hrun'

theorem C2_witness :
    ((KVStoreRun initStore
        [⟨.read, "a", 0, 0⟩, ⟨.write, "a", 5, 0⟩, ⟨.read, "a", 0, 1⟩]).2.2 =
      [] ++ SEv.grant "a" 0 :: ([SEv.writeOk "a" 5] ++
        SEv.grant "a" 5 :: [])) ∧
    ∃ w, SEv.writeOk "a" w ∈ [SEv.writeOk "a" 5] :=
  ⟨by decide,
   C2_mutual_exclusion
     [⟨.read, "a", 0, 0⟩, ⟨.write, "a", 5, 0⟩, ⟨.read, "a", 0, 1⟩]
     [] [SEv.writeOk "a" 5] [] "a" 0 5 (by decide)⟩

/-! ## History lemmas for the coherence proof -/

theorem lastPut_snoc (h : List Completion) (comp : Completion)
    (k : String) :
    lastPut (h ++ [comp]) k = lastPutStep k (lastPut h k) comp := by
  simp [lastPut, List.foldl_append]

theorem lastPut_snoc2 (h : List Completion) (c1 c2 : Completion)
    (k : String) :
    lastPut (h ++ [c1, c2]) k =
      lastPutStep k (lastPutStep k (lastPut h k) c1) c2 := by
  simp [lastPut, List.foldl_append]

theorem lastPutStep_get (k : String) (acc : Option Int) (c : Nat)
    (k' : String) (rep : ClientReply) :
    lastPutStep k acc ⟨c, .get k', rep⟩ = acc := rfl

theorem lastPutStep_put (k : String) (acc : Option Int) (c : Nat)
    (k' : String) (v : Int) (rep : ClientReply) :
    lastPutStep k acc ⟨c, .put k' v, rep⟩ =
      if k' = k ∧ rep.ok = true then some v else acc := rfl

theorem GetCoherent_nil : GetCoherent [] := by
  intro pre comp post k heq
  cases pre <;> simp at heq

theorem GetCoherent_snoc (h : List Completion) (comp : Completion)
    (hh : GetCoherent h)
    (hcomp : ∀ k, comp.act = .get k → comp.rep.ok = true →
      comp.rep.value = (lastPut h k).getD 0) :
    GetCoherent (h ++ [comp]) := by
  intro pre c post k heq hact hok
  rcases List.eq_nil_or_concat post with hpost | ⟨init, a, hpost⟩
  · subst hpost
    obtain ⟨h1, h2⟩ := List.append_inj' heq rfl
    subst h1
    cases h2
    exact hcomp k hact hok
  · subst hpost
    simp only [List.concat_eq_append] at heq
    rw [show pre ++ c :: (init ++ [a]) = (pre ++ c :: init) ++ [a] by
      simp] at heq
    obtain ⟨h1, h2⟩ := List.append_inj' heq rfl
    exact hh pre c init k h1 hact hok

theorem GetCoherent_snoc2 (h : List Completion) (c1 c2 : Completion)
    (hh : GetCoherent h)
    (hc1 : ∀ k, c1.act = .get k → c1.rep.ok = true →
      c1.rep.value = (lastPut h k).getD 0)
    (hc2 : ∀ k, c2.act = .get k → c2.rep.ok = true →
      c2.rep.value = (lastPut (h ++ [c1]) k).getD 0) :
    GetCoherent (h ++ [c1, c2]) := by
  have : h ++ [c1, c2] = (h ++ [c1]) ++ [c2] := by simp
  rw [this]
  exact GetCoherent_snoc _ _ (GetCoherent_snoc _ _ hh hc1) hc2

/-! ## The reachable-state invariant of the composed system -/

/-- The inductive invariant of a system of clients attached to one store,
relative to the completion history `h` produced so far:
the value table holds exactly the last completed Put's value (or was
materialized before any Put); every key a client caches is in the value
table with the same value; no two clients cache the same key; a cached
key is marked owned; the waiter slot holds Read requests for their own
key whose issuing client is recorded as blocked on that key; and the
history itself is coherent. -/
structure SysInv (s : SysState) (h : List Completion) : Prop where
  store_last : ∀ k v, alookup s.st.store k = some v →
    v = (lastPut h k).getD 0
  last_store : ∀ k v, lastPut h k = some v → alookup s.st.store k = some v
  cache_store : ∀ c k v, alookup (s.caches c) k = some v →
    alookup s.st.store k = some v
  excl : ∀ c c' k, c ≠ c' → (alookup (s.caches c) k).isSome →
    alookup (s.caches c') k = none
  holder_owned : ∀ c k, (alookup (s.caches c) k).isSome →
    ownedB s.st.isKeyOwned_store k = true
  waiter_wf : ∀ k wg, alookup s.st.waitingclients_store k = some wg →
    wg.op = .read ∧ wg.key = k ∧ s.pending wg.reply = some k
  hist : GetCoherent h

/-! ## Characterization of one system step, case by case -/

theorem sysStep_get_hit (s : SysState) (c : Nat) (k : String) (v : Int)
    (hc : alookup (s.caches c) k = some v) :
    sysStep s ⟨c, .get k⟩ = (s, [⟨c, .get k, ⟨v, true, true, ""⟩⟩]) := by
  simp [sysStep, KVClientGetLocal, hc]

theorem sysStep_get_grant_present (s : SysState) (c : Nat) (k : String)
    (v : Int) (hc : alookup (s.caches c) k = none)
    (hun : ownedB s.st.isKeyOwned_store k = false)
    (hs : alookup s.st.store k = some v) :
    sysStep s ⟨c, .get k⟩ =
      (⟨⟨s.st.store, ainsert s.st.isKeyOwned_store k true,
          s.st.waitingclients_store⟩,
        updF s.caches c (ainsert (s.caches c) k v),
        s.pending⟩,
       [⟨c, .get k, ⟨v, false, true, ""⟩⟩]) := by
  simp [sysStep, KVClientGetLocal, KVClientGetReply, handleOut, KVStoreStep,
    hc, hun, hs, updF_same]

theorem sysStep_get_grant_absent (s : SysState) (c : Nat) (k : String)
    (hc : alookup (s.caches c) k = none)
    (hun : ownedB s.st.isKeyOwned_store k = false)
    (hs : alookup s.st.store k = none) :
    sysStep s ⟨c, .get k⟩ =
      (⟨⟨ainsert s.st.store k 0, ainsert s.st.isKeyOwned_store k true,
          s.st.waitingclients_store⟩,
        updF s.caches c (ainsert (s.caches c) k 0),
        s.pending⟩,
       [⟨c, .get k, ⟨0, false, true, ""⟩⟩]) := by
  simp [sysStep, KVClientGetLocal, KVClientGetReply, handleOut, KVStoreStep,
    hc, hun, hs, updF_same]

theorem sysStep_get_queued (s : SysState) (c : Nat) (k : String)
    (hc : alookup (s.caches c) k = none)
    (how : ownedB s.st.isKeyOwned_store k = true) :
    sysStep s ⟨c, .get k⟩ =
      (⟨⟨s.st.store, s.st.isKeyOwned_store,
          ainsert s.st.waitingclients_store k ⟨.read, k, 0, c⟩⟩,
        s.caches,
        updF s.pending c (some k)⟩, []) := by
  simp [sysStep, KVClientGetLocal, KVStoreStep, hc, how]

theorem sysStep_put_miss (s : SysState) (c : Nat) (k : String) (v : Int)
    (hc : alookup (s.caches c) k = none) :
    sysStep s ⟨c, .put k v⟩ =
      (s, [⟨c, .put k v, ⟨0, false, false, "key not in local cache"⟩⟩]) := by
  simp [sysStep, KVClientPutLocal, hc]

theorem sysStep_put_nowaiter (s : SysState) (c : Nat) (k : String)
    (v w : Int) (hc : alookup (s.caches c) k = some w)
    (hst : alookup s.st.store k = some w)
    (hw : alookup s.st.waitingclients_store k = none) :
    sysStep s ⟨c, .put k v⟩ =
      (⟨⟨ainsert s.st.store k v, ainsert s.st.isKeyOwned_store k false,
          aerase s.st.waitingclients_store k⟩,
        updF s.caches c (aerase (ainsert (s.caches c) k v) k),
        s.pending⟩,
       [⟨c, .put k v, ⟨0, true, true, ""⟩⟩]) := by
  simp [sysStep, KVClientPutLocal, KVClientPutReply, handleOut, KVStoreStep,
    hc, hst, hw, updF_same, updF_updF_same]

theorem sysStep_put_waiter (s : SysState) (c : Nat) (k : String)
    (v w : Int) (wg : KVRequest) (hc : alookup (s.caches c) k = some w)
    (hst : alookup s.st.store k = some w)
    (hw : alookup s.st.waitingclients_store k = some wg)
    (hkey : wg.key = k) (hne : wg.reply ≠ c)
    (hpd : s.pending wg.reply = some k) :
    sysStep s ⟨c, .put k v⟩ =
      (⟨⟨ainsert s.st.store k v,
          ainsert (ainsert s.st.isKeyOwned_store k false) k true,
          aerase s.st.waitingclients_store k⟩,
        updF (updF s.caches c (aerase (ainsert (s.caches c) k v) k))
          wg.reply (ainsert (s.caches wg.reply) k v),
        updF s.pending wg.reply none⟩,
       [⟨c, .put k v, ⟨0, true, true, ""⟩⟩,
        ⟨wg.reply, .get k, ⟨v, false, true, ""⟩⟩]) := by
  simp [sysStep, KVClientPutLocal, KVClientPutReply, KVClientGetReply,
    handleOut, KVStoreStep, hc, hst, hw, hkey, hne, hpd, updF_same,
    updF_updF_same, updF_ne, alookup_ainsert]

/-! ## Invariant preservation, one lemma per step case -/

theorem lastPut_snoc_get (h : List Completion) (c : Nat) (k' k : String)
    (rep : ClientReply) :
    lastPut (h ++ [⟨c, .get k', rep⟩]) k = lastPut h k := by
  rw [lastPut_snoc, lastPutStep_get]

theorem inv_get_hit (s : SysState) (h : List Completion) (c : Nat)
    (k : String) (v : Int) (hinv : SysInv s h)
    (hc : alookup (s.caches c) k = some v) :
    SysInv s (h ++ [⟨c, .get k, ⟨v, true, true, ""⟩⟩]) := by
  refine ⟨?_, ?_, hinv.cache_store, hinv.excl, hinv.holder_owned,
    hinv.waiter_wf, ?_⟩
  · intro k' v' hv'
    rw [lastPut_snoc_get]
    exact hinv.store_last k' v' hv'
  · intro k' v' hv'
    rw [lastPut_snoc_get] at hv'
    exact hinv.last_store k' v' hv'
  · refine GetCoherent_snoc h _ hinv.hist ?_
    intro k0 hact hok
    have hact' : ClientCall.get k = ClientCall.get k0 := hact
    cases hact'
    exact hinv.store_last k v (hinv.cache_store c k v hc)

theorem inv_get_grant_present (s : SysState) (h : List Completion)
    (c : Nat) (k : String) (v : Int) (hinv : SysInv s h)
    (hc : alookup (s.caches c) k = none)
    (hun : ownedB s.st.isKeyOwned_store k = false)
    (hs : alookup s.st.store k = some v) :
    SysInv ⟨⟨s.st.store, ainsert s.st.isKeyOwned_store k true,
        s.st.waitingclients_store⟩,
      updF s.caches c (ainsert (s.caches c) k v), s.pending⟩
      (h ++ [⟨c, .get k, ⟨v, false, true, ""⟩⟩]) := by
  refine ⟨?_, ?_, ?_, ?_, ?_, ?_, ?_⟩
  all_goals (try dsimp only)
  · intro k' v' hv'
    rw [lastPut_snoc_get]
    exact hinv.store_last k' v' hv'
  · intro k' v' hv'
    rw [lastPut_snoc_get] at hv'
    exact hinv.last_store k' v' hv'
  · intro c' k' v' h'
    rw [updF_apply] at h'
    by_cases hcc : c' = c
    · rw [if_pos hcc, alookup_ainsert] at h'
      by_cases hkk : k' = k
      · subst hkk
        rw [if_pos rfl] at h'
        cases h'
        exact hs
      · rw [if_neg hkk] at h'
        exact hinv.cache_store c k' v' h'
    · rw [if_neg hcc] at h'
      exact hinv.cache_store c' k' v' h'
  · intro c1 c2 k' hne h1
    rw [updF_apply] at h1
    rw [updF_apply]
    by_cases hc1 : c1 = c
    · rw [if_pos hc1] at h1
      have hc2 : ¬ c2 = c := fun hh => hne (hc1.trans hh.symm)
      rw [if_neg hc2]
      rw [alookup_ainsert] at h1
      by_cases hkk : k' = k
      · subst hkk
        rcases hq : alookup (s.caches c2) k' with _ | u
        · rfl
        · have := hinv.holder_owned c2 k' (by rw [hq]; rfl)
          rw [hun] at this
          cases this
      · rw [if_neg hkk] at h1
        exact hinv.excl c c2 k' (hc1 ▸ hne) h1
    · rw [if_neg hc1] at h1
      by_cases hc2 : c2 = c
      · rw [if_pos hc2, alookup_ainsert]
        by_cases hkk : k' = k
        · subst hkk
          have := hinv.holder_owned c1 k' h1
          rw [hun] at this
          cases this
        · rw [if_neg hkk]
          exact hinv.excl c1 c k' (fun hh => hc1 hh) h1
      · rw [if_neg hc2]
        exact hinv.excl c1 c2 k' hne h1
  · intro c' k' h'
    rw [updF_apply] at h'
    unfold ownedB
    rw [alookup_ainsert]
    by_cases hkk : k' = k
    · rw [if_pos hkk]
      rfl
    · rw [if_neg hkk]
      by_cases hcc : c' = c
      · rw [if_pos hcc, alookup_ainsert, if_neg hkk] at h'
        exact hinv.holder_owned c k' h'
      · rw [if_neg hcc] at h'
        exact hinv.holder_owned c' k' h'
  · intro k' wg hwg
    exact hinv.waiter_wf k' wg hwg
  · refine GetCoherent_snoc h _ hinv.hist ?_
    intro k0 hact hok
    have hact' : ClientCall.get k = ClientCall.get k0 := hact
    cases hact'
    exact hinv.store_last k v hs

theorem inv_get_grant_absent (s : SysState) (h : List Completion)
    (c : Nat) (k : String) (hinv : SysInv s h)
    (hc : alookup (s.caches c) k = none)
    (hun : ownedB s.st.isKeyOwned_store k = false)
    (hs : alookup s.st.store k = none) :
    SysInv ⟨⟨ainsert s.st.store k 0, ainsert s.st.isKeyOwned_store k true,
        s.st.waitingclients_store⟩,
      updF s.caches c (ainsert (s.caches c) k 0), s.pending⟩
      (h ++ [⟨c, .get k, ⟨0, false, true, ""⟩⟩]) := by
  have hlp : lastPut h k = none := by
    rcases hq : lastPut h k with _ | u
    · rfl
    · have := hinv.last_store k u hq
      rw [hs] at this
      cases this
  refine ⟨?_, ?_, ?_, ?_, ?_, ?_, ?_⟩
  all_goals (try dsimp only)
  · intro k' v' hv'
    rw [lastPut_snoc_get]
    rw [alookup_ainsert] at hv'
    by_cases hkk : k' = k
    · subst hkk
      rw [if_pos rfl] at hv'
      cases hv'
      rw [hlp]
      rfl
    · rw [if_neg hkk] at hv'
      exact hinv.store_last k' v' hv'
  · intro k' v' hv'
    rw [lastPut_snoc_get] at hv'
    rw [alookup_ainsert]
    by_cases hkk : k' = k
    · subst hkk
      rw [hlp] at hv'
      cases hv'
    · rw [if_neg hkk]
      exact hinv.last_store k' v' hv'
  · intro c' k' v' h'
    rw [updF_apply] at h'
    rw [alookup_ainsert]
    by_cases hkk : k' = k
    · subst hkk
      rw [if_pos rfl]
      by_cases hcc : c' = c
      · rw [if_pos hcc, alookup_ainsert, if_pos rfl] at h'
        cases h'
        rfl
      · rw [if_neg hcc] at h'
        have := hinv.cache_store c' k' v' h'
        rw [hs] at this
        cases this
    · rw [if_neg hkk]
      by_cases hcc : c' = c
      · rw [if_pos hcc, alookup_ainsert, if_neg hkk] at h'
        exact hinv.cache_store c k' v' h'
      · rw [if_neg hcc] at h'
        exact hinv.cache_store c' k' v' h'
  · intro c1 c2 k' hne h1
    rw [updF_apply] at h1
    rw [updF_apply]
    by_cases hc1 : c1 = c
    · rw [if_pos hc1] at h1
      have hc2 : ¬ c2 = c := fun hh => hne (hc1.trans hh.symm)
      rw [if_neg hc2]
      rw [alookup_ainsert] at h1
      by_cases hkk : k' = k
      · subst hkk
        rcases hq : alookup (s.caches c2) k' with _ | u
        · rfl
        · have := hinv.holder_owned c2 k' (by rw [hq]; rfl)
          rw [hun] at this
          cases this
      · rw [if_neg hkk] at h1
        exact hinv.excl c c2 k' (hc1 ▸ hne) h1
    · rw [if_neg hc1] at h1
      by_cases hc2 : c2 = c
      · rw [if_pos hc2, alookup_ainsert]
        by_cases hkk : k' = k
        · subst hkk
          have := hinv.holder_owned c1 k' h1
          rw [hun] at this
          cases this
        · rw [if_neg hkk]
          exact hinv.excl c1 c k' (fun hh => hc1 hh) h1
      · rw [if_neg hc2]
        exact hinv.excl c1 c2 k' hne h1
  · intro c' k' h'
    rw [updF_apply] at h'
    unfold ownedB
    rw [alookup_ainsert]
    by_cases hkk : k' = k
    · rw [if_pos hkk]
      rfl
    · rw [if_neg hkk]
      by_cases hcc : c' = c
      · rw [if_pos hcc, alookup_ainsert, if_neg hkk] at h'
        exact hinv.holder_owned c k' h'
      · rw [if_neg hcc] at h'
        exact hinv.holder_owned c' k' h'
  · intro k' wg hwg
    exact hinv.waiter_wf k' wg hwg
  · refine GetCoherent_snoc h _ hinv.hist ?_
    intro k0 hact hok
    have hact' : ClientCall.get k = ClientCall.get k0 := hact
    cases hact'
    rw [hlp]
    rfl

theorem inv_get_queued (s : SysState) (h : List Completion) (c : Nat)
    (k : String) (hinv : SysInv s h) (hp : s.pending c = none) :
    SysInv ⟨⟨s.st.store, s.st.isKeyOwned_store,
        ainsert s.st.waitingclients_store k ⟨.read, k, 0, c⟩⟩,
      s.caches, updF s.pending c (some k)⟩ h := by
  refine ⟨hinv.store_last, hinv.last_store, hinv.cache_store, hinv.excl,
    hinv.holder_owned, ?_, hinv.hist⟩
  dsimp only
  intro k' wg hwg
  rw [alookup_ainsert] at hwg
  by_cases hkk : k' = k
  · subst hkk
    rw [if_pos rfl] at hwg
    cases hwg
    exact ⟨rfl, rfl, by rw [updF_same]⟩
  · rw [if_neg hkk] at hwg
    obtain ⟨h1, h2, h3⟩ := hinv.waiter_wf k' wg hwg
    refine ⟨h1, h2, ?_⟩
    rw [updF_apply]
    by_cases hrc : wg.reply = c
    · rw [hrc, hp] at h3
      cases h3
    · rw [if_neg hrc]
      exact h3

theorem inv_put_miss (s : SysState) (h : List Completion) (c : Nat)
    (k : String) (v : Int) (hinv : SysInv s h) :
    SysInv s
      (h ++ [⟨c, .put k v, ⟨0, false, false, "key not in local cache"⟩⟩]) := by
  have hl : ∀ k', lastPut
      (h ++ [⟨c, .put k v, ⟨0, false, false, "key not in local cache"⟩⟩]) k' =
      lastPut h k' := by
    intro k'
    rw [lastPut_snoc, lastPutStep_put]
    simp
  refine ⟨?_, ?_, hinv.cache_store, hinv.excl, hinv.holder_owned,
    hinv.waiter_wf, ?_⟩
  · intro k' v' hv'
    rw [hl]
    exact hinv.store_last k' v' hv'
  · intro k' v' hv'
    rw [hl] at hv'
    exact hinv.last_store k' v' hv'
  · refine GetCoherent_snoc h _ hinv.hist ?_
    intro k0 hact hok
    have hact' : ClientCall.put k v = ClientCall.get k0 := hact
    cases hact'

theorem lastPut_snoc_put_ok (h : List Completion) (c : Nat) (k : String)
    (v : Int) (k' : String) :
    lastPut (h ++ [⟨c, .put k v, ⟨0, true, true, ""⟩⟩]) k' =
      if k = k' then some v else lastPut h k' := by
  rw [lastPut_snoc, lastPutStep_put]
  simp

theorem lastPut_snoc2_putget (h : List Completion) (c cw : Nat)
    (k : String) (v : Int) (k' : String) :
    lastPut (h ++ [⟨c, .put k v, ⟨0, true, true, ""⟩⟩,
      ⟨cw, .get k, ⟨v, false, true, ""⟩⟩]) k' =
      if k = k' then some v else lastPut h k' := by
  rw [lastPut_snoc2, lastPutStep_get, lastPutStep_put]
  simp

theorem inv_put_nowaiter (s : SysState) (h : List Completion) (c : Nat)
    (k : String) (v w : Int) (hinv : SysInv s h)
    (hc : alookup (s.caches c) k = some w)
    (hst : alookup s.st.store k = some w)
    (hw : alookup s.st.waitingclients_store k = none) :
    SysInv ⟨⟨ainsert s.st.store k v, ainsert s.st.isKeyOwned_store k false,
        aerase s.st.waitingclients_store k⟩,
      updF s.caches c (aerase (ainsert (s.caches c) k v) k), s.pending⟩
      (h ++ [⟨c, .put k v, ⟨0, true, true, ""⟩⟩]) := by
  refine ⟨?_, ?_, ?_, ?_, ?_, ?_, ?_⟩
  all_goals (try dsimp only)
  · intro k' v' hv'
    rw [lastPut_snoc_put_ok]
    rw [alookup_ainsert] at hv'
    by_cases hkk : k' = k
    · subst hkk
      rw [if_pos rfl] at hv'
      cases hv'
      rw [if_pos rfl]
      rfl
    · rw [if_neg hkk] at hv'
      rw [if_neg (fun hh => hkk hh.symm)]
      exact hinv.store_last k' v' hv'
  · intro k' v' hv'
    rw [lastPut_snoc_put_ok] at hv'
    rw [alookup_ainsert]
    by_cases hkk : k' = k
    · subst hkk
      rw [if_pos rfl] at hv'
      cases hv'
      rw [if_pos rfl]
    · rw [if_neg (fun hh => hkk hh.symm)] at hv'
      rw [if_neg hkk]
      exact hinv.last_store k' v' hv'
  · intro c' k' v' h'
    rw [updF_apply] at h'
    rw [alookup_ainsert]
    by_cases hkk : k' = k
    · subst hkk
      rw [if_pos rfl]
      by_cases hcc : c' = c
      · rw [if_pos hcc, alookup_aerase, if_pos rfl] at h'
        cases h'
      · rw [if_neg hcc] at h'
        have hnone := hinv.excl c c' k' (fun hh => hcc hh.symm)
          (by rw [hc]; rfl)
        rw [hnone] at h'
        cases h'
    · rw [if_neg hkk]
      by_cases hcc : c' = c
      · rw [if_pos hcc, alookup_aerase, if_neg hkk, alookup_ainsert,
          if_neg hkk] at h'
        exact hinv.cache_store c k' v' h'
      · rw [if_neg hcc] at h'
        exact hinv.cache_store c' k' v' h'
  · intro c1 c2 k' hne h1
    rw [updF_apply] at h1
    rw [updF_apply]
    by_cases hkk : k' = k
    · subst hkk
      by_cases hc1 : c1 = c
      · rw [if_pos hc1, alookup_aerase, if_pos rfl] at h1
        simp at h1
      · rw [if_neg hc1] at h1
        have hnone := hinv.excl c c1 k' (fun hh => hc1 hh.symm)
          (by rw [hc]; rfl)
        rw [hnone] at h1
        simp at h1
    · by_cases hc2 : c2 = c
      · rw [if_pos hc2, alookup_aerase, if_neg hkk, alookup_ainsert,
          if_neg hkk]
        by_cases hc1 : c1 = c
        · exact absurd (hc1.trans hc2.symm) hne
        · rw [if_neg hc1] at h1
          exact hinv.excl c1 c k' (fun hh => hc1 hh) h1
      · rw [if_neg hc2]
        by_cases hc1 : c1 = c
        · rw [if_pos hc1, alookup_aerase, if_neg hkk, alookup_ainsert,
            if_neg hkk] at h1
          exact hinv.excl c c2 k' (hc1 ▸ hne) h1
        · rw [if_neg hc1] at h1
          exact hinv.excl c1 c2 k' hne h1
  · intro c' k' h'
    rw [updF_apply] at h'
    unfold ownedB
    rw [alookup_ainsert]
    by_cases hkk : k' = k
    · subst hkk
      by_cases hcc : c' = c
      · rw [if_pos hcc, alookup_aerase, if_pos rfl] at h'
        simp at h'
      · rw [if_neg hcc] at h'
        have hnone := hinv.excl c c' k' (fun hh => hcc hh.symm)
          (by rw [hc]; rfl)
        rw [hnone] at h'
        simp at h'
    · rw [if_neg hkk]
      by_cases hcc : c' = c
      · rw [if_pos hcc, alookup_aerase, if_neg hkk, alookup_ainsert,
          if_neg hkk] at h'
        exact hinv.holder_owned c k' h'
      · rw [if_neg hcc] at h'
        exact hinv.holder_owned c' k' h'
  · intro k' wg hwg
    rw [alookup_aerase] at hwg
    by_cases hkk : k' = k
    · rw [if_pos hkk] at hwg
      cases hwg
    · rw [if_neg hkk] at hwg
      exact hinv.waiter_wf k' wg hwg
  · refine GetCoherent_snoc h _ hinv.hist ?_
    intro k0 hact hok
    have hact' : ClientCall.put k v = ClientCall.get k0 := hact
    cases hact'

theorem inv_put_waiter (s : SysState) (h : List Completion) (c : Nat)
    (k : String) (v w : Int) (wg : KVRequest) (hinv : SysInv s h)
    (hc : alookup (s.caches c) k = some w)
    (hst : alookup s.st.store k = some w)
    (hw : alookup s.st.waitingclients_store k = some wg)
    (hkey : wg.key = k) (hne : wg.reply ≠ c)
    (hpd : s.pending wg.reply = some k) :
    SysInv ⟨⟨ainsert s.st.store k v,
        ainsert (ainsert s.st.isKeyOwned_store k false) k true,
        aerase s.st.waitingclients_store k⟩,
      updF (updF s.caches c (aerase (ainsert (s.caches c) k v) k))
        wg.reply (ainsert (s.caches wg.reply) k v),
      updF s.pending wg.reply none⟩
      (h ++ [⟨c, .put k v, ⟨0, true, true, ""⟩⟩,
        ⟨wg.reply, .get k, ⟨v, false, true, ""⟩⟩]) := by
  refine ⟨?_, ?_, ?_, ?_, ?_, ?_, ?_⟩
  all_goals (try dsimp only)
  · intro k' v' hv'
    rw [lastPut_snoc2_putget]
    rw [alookup_ainsert] at hv'
    by_cases hkk : k' = k
    · subst hkk
      rw [if_pos rfl] at hv'
      cases hv'
      rw [if_pos rfl]
      rfl
    · rw [if_neg hkk] at hv'
      rw [if_neg (fun hh => hkk hh.symm)]
      exact hinv.store_last k' v' hv'
  · intro k' v' hv'
    rw [lastPut_snoc2_putget] at hv'
    rw [alookup_ainsert]
    by_cases hkk : k' = k
    · subst hkk
      rw [if_pos rfl] at hv'
      cases hv'
      rw [if_pos rfl]
    · rw [if_neg (fun hh => hkk hh.symm)] at hv'
      rw [if_neg hkk]
      exact hinv.last_store k' v' hv'
  · intro c' k' v' h'
    rw [updF_apply] at h'
    rw [alookup_ainsert]
    by_cases hkk : k' = k
    · subst hkk
      rw [if_pos rfl]
      by_cases hcw : c' = wg.reply
      · rw [if_pos hcw, alookup_ainsert, if_pos rfl] at h'
        cases h'
        rfl
      · rw [if_neg hcw, updF_apply] at h'
        by_cases hcc : c' = c
        · rw [if_pos hcc, alookup_aerase, if_pos rfl] at h'
          cases h'
        · rw [if_neg hcc] at h'
          have hnone := hinv.excl c c' k' (fun hh => hcc hh.symm)
            (by rw [hc]; rfl)
          rw [hnone] at h'
          cases h'
    · rw [if_neg hkk]
      by_cases hcw : c' = wg.reply
      · rw [if_pos hcw, alookup_ainsert, if_neg hkk] at h'
        exact hinv.cache_store wg.reply k' v' h'
      · rw [if_neg hcw, updF_apply] at h'
        by_cases hcc : c' = c
        · rw [if_pos hcc, alookup_aerase, if_neg hkk, alookup_ainsert,
            if_neg hkk] at h'
          exact hinv.cache_store c k' v' h'
        · rw [if_neg hcc] at h'
          exact hinv.cache_store c' k' v' h'
  · intro c1 c2 k' hne2 h1
    by_cases hkk : k' = k
    · subst hkk
      by_cases hcw1 : c1 = wg.reply
      · have hcw2 : ¬ c2 = wg.reply := fun hh => hne2 (hcw1.trans hh.symm)
        rw [updF_apply, if_neg hcw2, updF_apply]
        by_cases hc2 : c2 = c
        · rw [if_pos hc2, alookup_aerase, if_pos rfl]
        · rw [if_neg hc2]
          exact hinv.excl c c2 k' (fun hh => hc2 hh.symm) (by rw [hc]; rfl)
      · rw [updF_apply, if_neg hcw1, updF_apply] at h1
        by_cases hc1 : c1 = c
        · rw [if_pos hc1, alookup_aerase, if_pos rfl] at h1
          simp at h1
        · rw [if_neg hc1] at h1
          have hnone := hinv.excl c c1 k' (fun hh => hc1 hh.symm)
            (by rw [hc]; rfl)
          rw [hnone] at h1
          simp at h1
    · have hred : ∀ cx, alookup (updF (updF s.caches c
          (aerase (ainsert (s.caches c) k v) k)) wg.reply
          (ainsert (s.caches wg.reply) k v) cx) k' =
          alookup (s.caches cx) k' := by
        intro cx
        rw [updF_apply]
        by_cases hx : cx = wg.reply
        · rw [if_pos hx, alookup_ainsert, if_neg hkk, hx]
        · rw [if_neg hx, updF_apply]
          by_cases hx2 : cx = c
          · rw [if_pos hx2, alookup_aerase, if_neg hkk, alookup_ainsert,
              if_neg hkk, hx2]
          · rw [if_neg hx2]
      rw [hred c1] at h1
      rw [hred c2]
      exact hinv.excl c1 c2 k' hne2 h1
  · intro c' k' h'
    unfold ownedB
    rw [alookup_ainsert]
    by_cases hkk : k' = k
    · rw [if_pos hkk]
      rfl
    · rw [if_neg hkk, alookup_ainsert, if_neg hkk]
      have hred : alookup (updF (updF s.caches c
          (aerase (ainsert (s.caches c) k v) k)) wg.reply
          (ainsert (s.caches wg.reply) k v) c') k' =
          alookup (s.caches c') k' := by
        rw [updF_apply]
        by_cases hx : c' = wg.reply
        · rw [if_pos hx, alookup_ainsert, if_neg hkk, hx]
        · rw [if_neg hx, updF_apply]
          by_cases hx2 : c' = c
          · rw [if_pos hx2, alookup_aerase, if_neg hkk, alookup_ainsert,
              if_neg hkk, hx2]
          · rw [if_neg hx2]
      rw [hred] at h'
      exact hinv.holder_owned c' k' h'
  · intro k' wg' hwg
    rw [alookup_aerase] at hwg
    by_cases hkk : k' = k
    · rw [if_pos hkk] at hwg
      cases hwg
    · rw [if_neg hkk] at hwg
      obtain ⟨h1, h2, h3⟩ := hinv.waiter_wf k' wg' hwg
      refine ⟨h1, h2, ?_⟩
      by_cases hr : wg'.reply = wg.reply
      · rw [hr, hpd] at h3
        cases h3
        exact absurd rfl hkk
      · rw [updF_apply, if_neg hr]
        exact h3
  · refine GetCoherent_snoc2 h _ _ hinv.hist ?_ ?_
    · intro k0 hact hok
      have hact' : ClientCall.put k v = ClientCall.get k0 := hact
      cases hact'
    · intro k0 hact hok
      have hact' : ClientCall.get k = ClientCall.get k0 := hact
      cases hact'
      rw [lastPut_snoc, lastPutStep_put]
      simp

/-! ## The induction over serialized runs -/

theorem sysStep_inv (s : SysState) (h : List Completion) (e : Event)
    (hinv : SysInv s h) (hp : s.pending e.client = none) :
    SysInv (sysStep s e).1 (h ++ (sysStep s e).2) := by
  obtain ⟨c, a⟩ := e
  dsimp only at hp
  cases a with
  | get k =>
    rcases hc : alookup (s.caches c) k with _ | v
    · cases hb : ownedB s.st.isKeyOwned_store k with
      | false =>
        rcases hs : alookup s.st.store k with _ | v0
        · rw [sysStep_get_grant_absent s c k hc hb hs]
          exact inv_get_grant_absent s h c k hinv hc hb hs
        · rw [sysStep_get_grant_present s c k v0 hc hb hs]
          exact inv_get_grant_present s h c k v0 hinv hc hb hs
      | true =>
        rw [sysStep_get_queued s c k hc hb]
        dsimp only
        rw [List.append_nil]
        exact inv_get_queued s h c k hinv hp
    · rw [sysStep_get_hit s c k v hc]
      exact inv_get_hit s h c k v hinv hc
  | put k v =>
    rcases hc : alookup (s.caches c) k with _ | w
    · rw [sysStep_put_miss s c k v hc]
      exact inv_put_miss s h c k v hinv
    · have hst := hinv.cache_store c k w hc
      rcases hw : alookup s.st.waitingclients_store k with _ | wg
      · rw [sysStep_put_nowaiter s c k v w hc hst hw]
        exact inv_put_nowaiter s h c k v w hinv hc hst hw
      · obtain ⟨hop, hkey, hpd⟩ := hinv.waiter_wf k wg hw
        have hne : wg.reply ≠ c := by
          intro hEq
          rw [hEq, hp] at hpd
          cases hpd
        rw [sysStep_put_waiter s c k v w wg hc hst hw hkey hne hpd]
        exact inv_put_waiter s h c k v w wg hinv hc hst hw hkey hne hpd

theorem sysRun_inv (es : List Event) :
    ∀ s h, SysInv s h → validRun s es = true →
      SysInv (sysRun s es).1 (h ++ (sysRun s es).2) := by
  induction es with
  | nil =>
    intro s h hinv _
    simp only [sysRun, List.append_nil]
    exact hinv
  | cons e es ih =>
    intro s h hinv hv
    simp only [validRun, Bool.and_eq_true] at hv
    obtain ⟨hp, hv'⟩ := hv
    have hp' : s.pending e.client = none := by
      rcases hq : s.pending e.client with _ | x
      · rfl
      · rw [hq] at hp
        simp at hp
    simp only [sysRun]
    have h1 := sysStep_inv s h e hinv hp'
    have h2 := ih (sysStep s e).1 (h ++ (sysStep s e).2) h1 hv'
    rw [List.append_assoc] at h2
    exact h2

theorem sysInv_init : SysInv initSys [] := by
  refine ⟨?_, ?_, ?_, ?_, ?_, ?_, GetCoherent_nil⟩
  · intro k v hv
    simp [initSys, initStore, alookup] at hv
  · intro k v hv
    simp [lastPut] at hv
  · intro c k v hv
    simp [initSys, alookup] at hv
  · intro c1 c2 k hne h1
    simp [initSys, alookup] at h1
  · intro c k h'
    simp [initSys, alookup] at h'
  · intro k wg hwg
    simp [initSys, initStore, alookup] at hwg

/-- The spec's end-to-end demonstration scenario as an event trace
(clients A = 0 and B = 1, seed values 42 and 7). -/
def demoTrace : List Event :=
  [⟨0, .get "alpha"⟩, ⟨0, .put "alpha" 42⟩, ⟨1, .get "alpha"⟩,
   ⟨0, .get "alpha"⟩, ⟨1, .get "alpha"⟩, ⟨1, .put "alpha" 7⟩]

/-- C1.  Coherence: for every serialized sequence of Get/Put calls issued
through clients — valid in the sense that a client whose Get is still
blocked issues nothing, which subsumes the claim's contention discipline —
every Get that completes returns either `0` (if no Put to that key has
ever completed) or the value of the most recently completed Put to that
key, never an earlier value. -/
theorem C1_coherence (tr : List Event)
    (hv : validRun initSys tr = true) :
    GetCoherent (sysRun initSys tr).2 := by
  have h := (sysRun_inv tr initSys [] sysInv_init hv).hist
  rw [List.nil_append] at h
  exact h

theorem C1_witness :
    validRun initSys demoTrace = true ∧
    (sysRun initSys demoTrace).2 =
      [⟨0, .get "alpha", ⟨0, false, true, ""⟩⟩,
       ⟨0, .put "alpha" 42, ⟨0, true, true, ""⟩⟩,
       ⟨1, .get "alpha", ⟨42, false, true, ""⟩⟩,
       ⟨1, .get "alpha", ⟨42, true, true, ""⟩⟩,
       ⟨1, .put "alpha" 7, ⟨0, true, true, ""⟩⟩,
       ⟨0, .get "alpha", ⟨7, false, true, ""⟩⟩] ∧
    GetCoherent (sysRun initSys demoTrace).2 :=
  ⟨by decide, by decide, C1_coherence demoTrace (by decide)⟩

/-- C10.  In every reachable state of a system of clients attached to one
store, every key present in a client's local cache is present in the
store's value table (with the same value); consequently the Write issued
by a Put whose key is in the cache is granted `ok = true` and the
client's "kv write failed (key missing in store)" branch never runs: the
Put completes with `{hit = true, ok = true}`. -/
theorem C10_cache_implies_store (tr : List Event)
    (hv : validRun initSys tr = true) :
    (∀ c k v, alookup ((sysRun initSys tr).1.caches c) k = some v →
      alookup (sysRun initSys tr).1.st.store k = some v) ∧
    (∀ c k w v, alookup ((sysRun initSys tr).1.caches c) k = some w →
      (sysRun initSys tr).1.pending c = none →
      ((sysStep (sysRun initSys tr).1 ⟨c, .put k v⟩).2).head? =
        some ⟨c, .put k v, ⟨0, true, true, ""⟩⟩) := by
  have hrun := sysRun_inv tr initSys [] sysInv_init hv
  refine ⟨fun c k v hv' => hrun.cache_store c k v hv', ?_⟩
  intro c k w v hcw hpd
  have hst := hrun.cache_store c k w hcw
  rcases hw : alookup (sysRun initSys tr).1.st.waitingclients_store k
    with _ | wg
  · rw [sysStep_put_nowaiter _ c k v w hcw hst hw]
    rfl
  · obtain ⟨hop, hkey, hpdw⟩ := hrun.waiter_wf k wg hw
    have hne : wg.reply ≠ c := by
      intro hEq
      rw [hEq, hpd] at hpdw
      cases hpdw
    rw [sysStep_put_waiter _ c k v w wg hcw hst hw hkey hne hpdw]
    rfl

theorem C10_witness :
    validRun initSys [⟨0, .get "alpha"⟩] = true ∧
    alookup ((sysRun initSys [⟨0, .get "alpha"⟩]).1.caches 0) "alpha" =
      some 0 ∧
    ((∀ c k v, alookup
        ((sysRun initSys [⟨0, .get "alpha"⟩]).1.caches c) k = some v →
      alookup (sysRun initSys [⟨0, .get "alpha"⟩]).1.st.store k = some v) ∧
    (∀ c k w v, alookup
        ((sysRun initSys [⟨0, .get "alpha"⟩]).1.caches c) k = some w →
      (sysRun initSys [⟨0, .get "alpha"⟩]).1.pending c = none →
      ((sysStep (sysRun initSys [⟨0, .get "alpha"⟩]).1
          ⟨c, .put k v⟩).2).head? =
        some ⟨c, .put k v, ⟨0, true, true, ""⟩⟩)) :=
  ⟨by decide, by decide,
   C10_cache_implies_store [⟨0, .get "alpha"⟩] (by decide)⟩
